import Mathlib

/-!
Shallow embedding of `src/remove_video_watermark.py` (a static-watermark mask
extractor).  Machine floats are modelled by `ℚ`; numpy arrays by nested lists
(a frame is `H` rows of `W` pixels of `C` channel values).  External
collaborators (the `ffprobe`/`ffmpeg` subprocesses, Python's `float()` parser,
numpy's seeded Mersenne–Twister shuffle and scipy's sampled Gaussian kernel)
enter as explicit parameters of the functions that call them, so every theorem
quantifies over the collaborator and holds in particular for the real one.
-/

namespace RemoveWatermark

/-- Minimum of a list of rationals, as `np.min` computes it on a non-empty
array (the empty case, on which numpy raises, is given the junk value 0). -/
def listMin : List ℚ → ℚ
  | [] => 0
  | a :: as => as.foldl min a

/-- Maximum of a list of rationals, as `np.max` computes it on a non-empty
array (the empty case, on which numpy raises, is given the junk value 0). -/
def listMax : List ℚ → ℚ
  | [] => 0
  | a :: as => as.foldl max a

/-- `normalize` from the source (lines 22–28): min–max normalisation of an
array into `[0, 1]`; when `max - min = 0` it returns `np.zeros_like(x)`.
This is the 1-D instance; the Python function is shape generic and
`normalize2` below is the same code at 2-D arrays. -/
def normalize (x : List ℚ) : List ℚ :=
  if listMax x - listMin x = 0 then x.map (fun _ => 0)
  else x.map (fun v => (v - listMin x) / (listMax x - listMin x))

/-- One pixel: the list of its channel values (`C` of them). -/
abbrev Chan := List ℚ

/-- One image row: `W` pixels. -/
abbrev Row := List Chan

/-- One decoded frame: `H` rows (the numpy array `imageio.imread` returns,
shape `(H, W, C)`). -/
abbrev Frame := List Row

/-- A 2-D scalar field, shape `(H, W)`. -/
abbrev Grid := List (List ℚ)

/-- The final mask: a single-channel `(H, W)` image of `uint8` values. -/
abbrev MaskImg := List (List ℕ)

/-- Interior/edge recursion of `np.gradient` along one axis: given the two
previous slices and the remaining ones, emit central differences
`half (sub next prev)` and the final one-sided difference `sub cur prev`. -/
def gradAux (sub : α → α → α) (half : α → α) : α → α → List α → List α
  | prev, cur, [] => [sub cur prev]
  | prev, cur, next :: rest => half (sub next prev) :: gradAux sub half cur next rest

/-- `np.gradient` along one axis with unit spacing and `edge_order=1`:
one-sided differences at the two edges, central differences `(x[i+1]-x[i-1])/2`
inside.  numpy raises on axes of length `< 2`; those cases are given junk
values and are guarded by the shape checks of the callers below. -/
def grad1 (sub : α → α → α) (half : α → α) : List α → List α
  | [] => []
  | [x] => [x]
  | x0 :: x1 :: rest => sub x1 x0 :: gradAux sub half x0 x1 rest

/-- Pointwise difference of two pixels (channelwise). -/
def chanSub (a b : Chan) : Chan := List.zipWith (fun u v => u - v) a b

/-- Pointwise halving of a pixel (channelwise). -/
def chanHalf (a : Chan) : Chan := a.map (fun u => u / 2)

/-- Pointwise difference of two rows. -/
def rowSub (a b : Row) : Row := List.zipWith chanSub a b

/-- Pointwise halving of a row. -/
def rowHalf (a : Row) : Row := a.map chanHalf

/-- Mean of the channel values of one pixel (`mean(axis=3)` at one site). -/
def chanMean (c : Chan) : ℚ := c.sum / (c.length : ℚ)

/-- `np.gradient(images, axis=1)` on the stacked `(N, H, W, C)` array:
the derivative along the row axis of each frame. -/
def npGradientAxis1 (s : List Frame) : List Frame :=
  s.map (grad1 rowSub rowHalf)

/-- `np.gradient(images, axis=2)` on the stacked `(N, H, W, C)` array:
the derivative along the column axis of each frame. -/
def npGradientAxis2 (s : List Frame) : List Frame :=
  s.map (fun f => f.map (grad1 chanSub chanHalf))

/-- `.mean(axis=3)` on a stacked `(N, H, W, C)` array: average the channels
away, giving one `(H, W)` grid per frame. -/
def npMeanAxis3 (s : List Frame) : List Grid :=
  s.map (fun f => f.map (fun row => row.map chanMean))

/-- `np.mean(ds, axis=0)` on a stacked `(N, H, W)` array of grids: the
elementwise mean across the stack.  `H` and `W` are the (checked) common
dimensions of the stacked grids, which numpy carries as the array shape. -/
def stackMean (H W : Nat) (ds : List Grid) : Grid :=
  (List.range H).map (fun h => (List.range W).map (fun w =>
    (ds.map (fun d => (d.getD h []).getD w 0)).sum / (ds.length : ℚ)))

/-- `np.abs`, elementwise on a grid. -/
def absGrid (g : Grid) : Grid := g.map (List.map (fun v => |v|))

/-- `mean_dx` of the source (lines 104, 106): gradient of the stack along
axis 1, channel mean, mean across frames, then absolute value. -/
def mean_dx_of (H W : Nat) (buff : List Frame) : Grid :=
  absGrid (stackMean H W (npMeanAxis3 (npGradientAxis1 buff)))

/-- `mean_dy` of the source (lines 105, 107): gradient of the stack along
axis 2, channel mean, mean across frames, then absolute value. -/
def mean_dy_of (H W : Nat) (buff : List Frame) : Grid :=
  absGrid (stackMean H W (npMeanAxis3 (npGradientAxis2 buff)))

/-- The fixed saliency threshold of the source (line 110). -/
def threshold : ℚ := 10

/-- Line 111 of the source:
`((mean_dx > threshold) | (mean_dy > threshold)).astype(float)`. -/
def salientOf (mdx mdy : Grid) : Grid :=
  List.zipWith (fun r1 r2 =>
    List.zipWith (fun u v => if threshold < u ∨ threshold < v then (1 : ℚ) else 0) r1 r2)
    mdx mdy

/-- Index folding of scipy's default boundary mode `reflect`
(`(d c b a | a b c d | d c b a)`): the infinite extension is periodic with
period `2n` and mirrors about the array edges with the edge repeated. -/
def reflectIdx (n : Nat) (i : Int) : Nat :=
  let j := (i.emod (2 * n)).toNat
  if j < n then j else 2 * n - 1 - j

/-- One-dimensional correlation along axis 0 of an `(H, W)` grid with kernel
`w` of radius `r`, boundary mode `reflect` (one pass of
`scipy.ndimage.gaussian_filter`). -/
def correlateAxis0 (H W : Nat) (w : List ℚ) (r : Nat) (g : Grid) : Grid :=
  (List.range H).map (fun (i : Nat) => (List.range W).map (fun (j : Nat) =>
    ((List.range w.length).map (fun (k : Nat) =>
      w.getD k 0 * ((g.getD (reflectIdx H ((i : Int) + k - r)) []).getD j 0))).sum))

/-- One-dimensional correlation along axis 1 of an `(H, W)` grid with kernel
`w` of radius `r`, boundary mode `reflect`. -/
def correlateAxis1 (H W : Nat) (w : List ℚ) (r : Nat) (g : Grid) : Grid :=
  (List.range H).map (fun (i : Nat) => (List.range W).map (fun (j : Nat) =>
    ((List.range w.length).map (fun (k : Nat) =>
      w.getD k 0 * ((g.getD i []).getD (reflectIdx W ((j : Int) + k - r)) 0))).sum))

/-- `scipy.ndimage.gaussian_filter(·, sigma=3)` on a 2-D array: a separable
correlation, one 1-D pass per axis, boundary mode `reflect`.  The sampled
1-D Gaussian kernel `w` (for `sigma=3`, `truncate=4.0`: radius `r = 12`,
normalised samples of `exp(-k^2/18)`) has irrational ideal weights, so the
kernel and its radius are parameters here; every theorem below holds for all
kernels, in particular for scipy's. -/
def gaussian_filter (w : List ℚ) (r : Nat) (H W : Nat) (g : Grid) : Grid :=
  correlateAxis1 H W w r (correlateAxis0 H W w r g)

/-- The source's `normalize` applied to a 2-D array: min and max range over
all entries, the affine map is applied elementwise, and a constant array maps
to `np.zeros_like`. -/
def normalize2 (g : Grid) : Grid :=
  if listMax g.flatten - listMin g.flatten = 0 then g.map (List.map (fun _ => 0))
  else g.map (List.map (fun v =>
    (v - listMin g.flatten) / (listMax g.flatten - listMin g.flatten)))

/-- Line 113 of the source: `((salient > 0.2) * 255).astype(np.uint8)`. -/
def binarizeMask (g : Grid) : MaskImg :=
  g.map (List.map (fun v => if (1 : ℚ) / 5 < v then 255 else 0))

/-- Shape check of one frame: exactly `H` rows, each of exactly `W` pixels,
each of exactly `C` channels. -/
def isRectF (H W C : Nat) (f : Frame) : Bool :=
  f.length == H && f.all (fun row => row.length == W && row.all (fun ch => ch.length == C))

/-- The shape numpy infers for a nested list: outer length, first row's
length, first pixel's length. -/
def canonShape (f : Frame) : Nat × Nat × Nat :=
  (f.length, (f.headD []).length, ((f.headD []).headD []).length)

/-- `np.array(buff)` succeeding as a rectangular `(N, H, W, C)` stack: `none`
models the `ValueError` numpy raises on an inhomogeneous nested sequence
(frames of differing dimensions), `some (H, W, C)` the common frame shape. -/
def stackShape? : List Frame → Option (Nat × Nat × Nat)
  | [] => none
  | f :: rest =>
    if (f :: rest).all (fun g =>
        isRectF (canonShape f).1 (canonShape f).2.1 (canonShape f).2.2 g)
    then some (canonShape f) else none

/-- The ways `extract_watermark_mask` aborts, named as in the specification:
`insufficientSamples` is the explicit `ValueError` of line 99,
`dimensionMismatch` the `ValueError` `np.array` raises on frames of unequal
dimensions (line 101), and `gradientShape` the `ValueError` `np.gradient`
raises when the differenced axis is shorter than 2 (lines 104–105). -/
inductive MaskErr
  | insufficientSamples
  | dimensionMismatch
  | gradientShape
deriving DecidableEq

/-- `extract_watermark_mask` of the source (lines 92–117), from the decoded
frames `buff` (the images read back from the temp directory, in sorted glob
order) to the binary mask.  The Gaussian kernel `w` and its radius `r` stand
for scipy's sampled `sigma=3` kernel. -/
def extract_watermark_mask (w : List ℚ) (r : Nat) (buff : List Frame) :
    Except MaskErr MaskImg :=
  if buff.length < 2 then .error .insufficientSamples
  else
    match stackShape? buff with
    | none => .error .dimensionMismatch
    | some (H, W, _) =>
      if H < 2 || W < 2 then .error .gradientShape
      else
        .ok (binarizeMask (normalize2 (gaussian_filter w r H W
          (salientOf (mean_dx_of H W buff) (mean_dy_of H W buff)))))

/-- Spec-side per-frame statistic (for the refinement claim C1), written from
the spec's words: the discrete derivative of one frame along the row axis,
averaged across color channels, one signed scalar field per frame. -/
def specFrameGradH (f : Frame) : Grid :=
  (grad1 rowSub rowHalf f).map (fun row => row.map chanMean)

/-- Spec-side per-frame statistic (for the refinement claim C1): the discrete
derivative of one frame along the column axis, averaged across color
channels, one signed scalar field per frame. -/
def specFrameGradV (f : Frame) : Grid :=
  f.map (fun row => (grad1 chanSub chanHalf row).map chanMean)

/-- Spec-side step 1 of the MaskBuilder (for the refinement claim C2): the
boolean salient field, true where either absolute mean gradient exceeds the
threshold. -/
def specStep1 (mdx mdy : Grid) : List (List Bool) :=
  List.zipWith (fun r1 r2 =>
    List.zipWith (fun u v => decide (threshold < u) || decide (threshold < v)) r1 r2)
    mdx mdy

/-- Spec-side step 2 of the MaskBuilder: promote the boolean field to floats
and smooth it with the Gaussian kernel. -/
def specStep2 (w : List ℚ) (r : Nat) (H W : Nat) (b : List (List Bool)) : Grid :=
  gaussian_filter w r H W (b.map (List.map (fun x => if x then (1 : ℚ) else 0)))

/-- Spec-side step 3 of the MaskBuilder: min–max normalise into `[0, 1]`. -/
def specStep3 (g : Grid) : Grid := normalize2 g

/-- Spec-side step 4 of the MaskBuilder: binarise at the fixed cutoff `0.2`,
to pixel values 255 and 0. -/
def specStep4 (g : Grid) : MaskImg := binarizeMask g

/-- Decidable equality of `Except` results, so concrete runs of the embedded
functions can be checked by `decide`. -/
instance exceptDecEq {ε α : Type} [DecidableEq ε] [DecidableEq α] :
    DecidableEq (Except ε α) := fun x y =>
  match x, y with
  | .ok a, .ok b => if h : a = b then isTrue (by rw [h]) else isFalse (by simp [h])
  | .error a, .error b => if h : a = b then isTrue (by rw [h]) else isFalse (by simp [h])
  | .ok _, .error _ => isFalse (by simp)
  | .error _, .ok _ => isFalse (by simp)

/-- A nested list is a rectangular `H × W` 2-D array. -/
def rectangular (H W : Nat) (g : List (List α)) : Prop :=
  g.length = H ∧ ∀ row ∈ g, row.length = W

/-- A concrete 2×2×1 frame used by witnesses. -/
def sampleFrameA : Frame := [[[(0 : ℚ)], [2]], [[4], [6]]]

/-- A second concrete 2×2×1 frame used by witnesses. -/
def sampleFrameB : Frame := [[[(1 : ℚ)], [3]], [[5], [9]]]

/-- A concrete stack of two equally-sized frames used by witnesses. -/
def sampleStack : List Frame := [sampleFrameA, sampleFrameB]

/-- A concrete stack of two all-zero 2×2×1 frames, on which the whole mask
pipeline is evaluated symbolically for the witnesses of successful runs. -/
def zeroStack : List Frame := [[[[0], [0]], [[0], [0]]], [[[0], [0]], [[0], [0]]]]

/-- `extract_frames` of the source (lines 71–89), returning the counter.
`parseF` models Python's builtin `float()` on a string (`none` = the
`ValueError` that makes the loop `continue`); `decodeOk` models whether the
`ffmpeg` subprocess actually wrote a frame image for that timestamp — the
source never consults `subprocess.run`'s result, which is modelled by the
loop body discarding `decodeOk ts`.  The body of the `for` loop is split out
as `extract_frames_step` so the counting lemmas can speak about one
iteration. -/
def extract_frames_step (parseF : String → Option ℚ) (decodeOk : String → Bool)
    (counter : Nat) (ts : String) : Nat :=
  match parseF ts with
  | none => counter
  | some _ =>
    let _ := decodeOk ts
    counter + 1

/-- `extract_frames` of the source (lines 71–89), returning the counter: the
fold of `extract_frames_step` over the timestamp list. -/
def extract_frames (parseF : String → Option ℚ) (decodeOk : String → Bool)
    (keyframes_time : List String) : Nat :=
  keyframes_time.foldl (extract_frames_step parseF decodeOk) 0

/-- The global numpy random-generator state (`np.random`), abstracted to the
seed that last initialised it. -/
structure NpRandomState where
  seed : Nat

/-- `np.random.seed n`: replaces the ambient generator state. -/
def np_random_seed (n : Nat) : NpRandomState := ⟨n⟩

/-- Failure of `extract_keyframes`, named as in the specification:
`inputError` is the `ValueError` Python's `float()` raises on an unparsable
`ffprobe` duration (unknown duration, unreadable video), and `zeroDivision`
the `ZeroDivisionError` of `duration / max_frames` at `max_frames = 0`. -/
inductive KfErr
  | inputError
  | zeroDivision
deriving DecidableEq

/-- `extract_keyframes` of the source (lines 31–68).  `shuffle` models
`np.random.shuffle` as a function of the seeding state and the list (numpy's
seeded Mersenne–Twister Fisher–Yates permutation); `fmt` models the Python
format `f"\x7bx:.4f\x7d"`; `probe` is the `ffprobe` keyframe listing (`none` =
`CalledProcessError`); `dur` is the parsed container duration (`none` = the
`float()` parse failing).  `st` is the ambient `np.random` state the process
starts with; the source overwrites it with `np.random.seed(42)` before
shuffling, which is why the result does not depend on `st`. -/
def extract_keyframes (shuffle : Nat → List String → List String)
    (fmt : ℚ → String) (probe : Option (List String)) (dur : Option ℚ)
    (max_frames : Nat) (st : NpRandomState) : Except KfErr (List String) :=
  let fallback : Except KfErr (List String) :=
    match dur with
    | none => .error .inputError
    | some duration =>
      if max_frames = 0 then .error .zeroDivision
      else
        let interval := duration / (max_frames : ℚ)
        .ok ((List.range max_frames).map (fun i => fmt ((i + 1 : ℚ) * interval)))
  match probe with
  | none => fallback
  | some lines =>
    let keyframes_time := (lines.dedup).insertionSort (fun a b => a ≤ b)
    if keyframes_time = [] then fallback
    else
      let st1 := np_random_seed 42
      let _ := st
      .ok ((shuffle st1.seed keyframes_time).take max_frames)

/-! ### Helper lemmas about `listMin` / `listMax` -/

lemma foldl_min_le (l : List ℚ) : ∀ acc : ℚ, l.foldl min acc ≤ acc := by
  induction l with
  | nil => intro acc; simp
  | cons y ys ih =>
    intro acc
    calc (y :: ys).foldl min acc = ys.foldl min (min acc y) := rfl
    _ ≤ min acc y := ih _
    _ ≤ acc := min_le_left _ _

lemma foldl_min_le_mem (l : List ℚ) : ∀ acc v : ℚ, v ∈ l → l.foldl min acc ≤ v := by
  induction l with
  | nil => intro acc v hv; cases hv
  | cons y ys ih =>
    intro acc v hv
    rcases List.mem_cons.1 hv with rfl | hv
    · calc (v :: ys).foldl min acc = ys.foldl min (min acc v) := rfl
      _ ≤ min acc v := foldl_min_le _ _
      _ ≤ v := min_le_right _ _
    · exact ih _ v hv

lemma le_foldl_max (l : List ℚ) : ∀ acc : ℚ, acc ≤ l.foldl max acc := by
  induction l with
  | nil => intro acc; simp
  | cons y ys ih =>
    intro acc
    calc acc ≤ max acc y := le_max_left _ _
    _ ≤ ys.foldl max (max acc y) := ih _
    _ = (y :: ys).foldl max acc := rfl

lemma mem_le_foldl_max (l : List ℚ) : ∀ acc v : ℚ, v ∈ l → v ≤ l.foldl max acc := by
  induction l with
  | nil => intro acc v hv; cases hv
  | cons y ys ih =>
    intro acc v hv
    rcases List.mem_cons.1 hv with rfl | hv
    · calc v ≤ max acc v := le_max_right _ _
      _ ≤ ys.foldl max (max acc v) := le_foldl_max _ _
      _ = (v :: ys).foldl max acc := rfl
    · exact ih _ v hv

lemma listMin_le (x : List ℚ) (v : ℚ) (hv : v ∈ x) : listMin x ≤ v := by
  cases x with
  | nil => cases hv
  | cons a as =>
    rcases List.mem_cons.1 hv with rfl | hv
    · exact foldl_min_le as v
    · exact foldl_min_le_mem as a v hv

lemma le_listMax (x : List ℚ) (v : ℚ) (hv : v ∈ x) : v ≤ listMax x := by
  cases x with
  | nil => cases hv
  | cons a as =>
    rcases List.mem_cons.1 hv with rfl | hv
    · exact le_foldl_max as v
    · exact mem_le_foldl_max as a v hv

lemma foldl_min_of_le (l : List ℚ) : ∀ acc : ℚ, (∀ v ∈ l, acc ≤ v) → l.foldl min acc = acc := by
  induction l with
  | nil => intro acc _; rfl
  | cons y ys ih =>
    intro acc h
    have h1 : min acc y = acc := min_eq_left (h y (by simp))
    calc (y :: ys).foldl min acc = ys.foldl min (min acc y) := rfl
    _ = ys.foldl min acc := by rw [h1]
    _ = acc := ih acc (fun v hv => h v (by simp [hv]))

lemma foldl_max_of_le (l : List ℚ) : ∀ acc : ℚ, (∀ v ∈ l, v ≤ acc) → l.foldl max acc = acc := by
  induction l with
  | nil => intro acc _; rfl
  | cons y ys ih =>
    intro acc h
    have h1 : max acc y = acc := max_eq_left (h y (by simp))
    calc (y :: ys).foldl max acc = ys.foldl max (max acc y) := rfl
    _ = ys.foldl max acc := by rw [h1]
    _ = acc := ih acc (fun v hv => h v (by simp [hv]))

lemma foldl_min_map (f : ℚ → ℚ) (hf : ∀ u v, f (min u v) = min (f u) (f v)) :
    ∀ (tl : List ℚ) (acc : ℚ), (tl.map f).foldl min (f acc) = f (tl.foldl min acc) := by
  intro tl
  induction tl with
  | nil => intro acc; rfl
  | cons y ys ih =>
    intro acc
    calc ((y :: ys).map f).foldl min (f acc)
        = (ys.map f).foldl min (min (f acc) (f y)) := rfl
    _ = (ys.map f).foldl min (f (min acc y)) := by rw [hf]
    _ = f (ys.foldl min (min acc y)) := ih _
    _ = f ((y :: ys).foldl min acc) := rfl

lemma foldl_max_map (f : ℚ → ℚ) (hf : ∀ u v, f (max u v) = max (f u) (f v)) :
    ∀ (tl : List ℚ) (acc : ℚ), (tl.map f).foldl max (f acc) = f (tl.foldl max acc) := by
  intro tl
  induction tl with
  | nil => intro acc; rfl
  | cons y ys ih =>
    intro acc
    calc ((y :: ys).map f).foldl max (f acc)
        = (ys.map f).foldl max (max (f acc) (f y)) := rfl
    _ = (ys.map f).foldl max (f (max acc y)) := by rw [hf]
    _ = f (ys.foldl max (max acc y)) := ih _
    _ = f ((y :: ys).foldl max acc) := rfl

lemma affine_min (a b : ℚ) (ha : 0 < a) (u v : ℚ) :
    a * min u v + b = min (a * u + b) (a * v + b) := by
  rcases le_total u v with h | h
  · rw [min_eq_left h, min_eq_left]
    exact add_le_add_right (mul_le_mul_of_nonneg_left h ha.le) b
  · rw [min_eq_right h, min_eq_right]
    exact add_le_add_right (mul_le_mul_of_nonneg_left h ha.le) b

lemma affine_max (a b : ℚ) (ha : 0 < a) (u v : ℚ) :
    a * max u v + b = max (a * u + b) (a * v + b) := by
  rcases le_total u v with h | h
  · rw [max_eq_right h, max_eq_right]
    exact add_le_add_right (mul_le_mul_of_nonneg_left h ha.le) b
  · rw [max_eq_left h, max_eq_left]
    exact add_le_add_right (mul_le_mul_of_nonneg_left h ha.le) b

lemma listMin_map_affine (a b : ℚ) (ha : 0 < a) (hd : ℚ) (tl : List ℚ) :
    listMin ((hd :: tl).map (fun v => a * v + b)) = a * listMin (hd :: tl) + b := by
  simpa [listMin] using
    foldl_min_map (fun v => a * v + b) (affine_min a b ha) tl hd

lemma listMax_map_affine (a b : ℚ) (ha : 0 < a) (hd : ℚ) (tl : List ℚ) :
    listMax ((hd :: tl).map (fun v => a * v + b)) = a * listMax (hd :: tl) + b := by
  simpa [listMax] using
    foldl_max_map (fun v => a * v + b) (affine_max a b ha) tl hd

lemma listMin_all_eq (hd : ℚ) (tl : List ℚ)
    (h : ∀ v ∈ hd :: tl, v = hd) : listMin (hd :: tl) = hd := by
  simp only [listMin]
  exact foldl_min_of_le tl hd (fun v hv => le_of_eq (h v (by simp [hv])).symm)

lemma listMax_all_eq (hd : ℚ) (tl : List ℚ)
    (h : ∀ v ∈ hd :: tl, v = hd) : listMax (hd :: tl) = hd := by
  simp only [listMax]
  exact foldl_max_of_le tl hd (fun v hv => le_of_eq (h v (by simp [hv])))

/-- Claim C4: for every input array `x`, if all entries of `x` are equal then
`normalize x` is identically zero (a success, not an error); otherwise, for
every positive `a` and every `b`, `normalize (a*x + b) = normalize x`. -/
theorem normalize_affine_invariance (x : List ℚ) (a b : ℚ) (ha : 0 < a) :
    ((∀ u ∈ x, ∀ v ∈ x, u = v) → normalize x = x.map (fun _ => 0)) ∧
    (¬ (∀ u ∈ x, ∀ v ∈ x, u = v) →
      normalize (x.map (fun v => a * v + b)) = normalize x) := by
  constructor
  · intro hall
    cases x with
    | nil => simp [normalize]
    | cons hd tl =>
      have h' : ∀ v ∈ hd :: tl, v = hd := fun v hv => hall v hv hd (by simp)
      have hm := listMin_all_eq hd tl h'
      have hM := listMax_all_eq hd tl h'
      unfold normalize
      rw [hm, hM, if_pos (sub_self hd)]
  · intro hne
    cases x with
    | nil => exact absurd (by simp) hne
    | cons hd tl =>
      push_neg at hne
      obtain ⟨u, hu, v, hv, huv⟩ := hne
      have hMm : listMax (hd :: tl) - listMin (hd :: tl) ≠ 0 := by
        intro h0
        have h1 : listMax (hd :: tl) = listMin (hd :: tl) := by
          have := sub_eq_zero.mp h0; linarith
        refine huv (le_antisymm ?_ ?_)
        · calc u ≤ listMax (hd :: tl) := le_listMax _ u hu
          _ = listMin (hd :: tl) := h1
          _ ≤ v := listMin_le _ v hv
        · calc v ≤ listMax (hd :: tl) := le_listMax _ v hv
          _ = listMin (hd :: tl) := h1
          _ ≤ u := listMin_le _ u hu
      have hne' : a * (listMax (hd :: tl) - listMin (hd :: tl)) ≠ 0 :=
        mul_ne_zero (ne_of_gt ha) hMm
      unfold normalize
      rw [listMax_map_affine a b ha, listMin_map_affine a b ha]
      have hc : a * listMax (hd :: tl) + b - (a * listMin (hd :: tl) + b)
          = a * (listMax (hd :: tl) - listMin (hd :: tl)) := by ring
      rw [hc, if_neg hne', if_neg hMm, List.map_map]
      refine List.map_congr_left (fun w _ => ?_)
      show (a * w + b - (a * listMin (hd :: tl) + b))
          / (a * (listMax (hd :: tl) - listMin (hd :: tl)))
        = (w - listMin (hd :: tl)) / (listMax (hd :: tl) - listMin (hd :: tl))
      have h2 : a * w + b - (a * listMin (hd :: tl) + b) = a * (w - listMin (hd :: tl)) := by
        ring
      rw [h2, mul_div_mul_left _ _ (ne_of_gt ha)]

/-- Witness for C4 at `x = [0, 1]`, `a = 2`, `b = 3`. -/
theorem normalize_affine_invariance_witness :
    (0 : ℚ) < 2 ∧
      normalize ([(0 : ℚ), 1].map (fun v => 2 * v + 3)) = normalize [(0 : ℚ), 1] :=
  ⟨by norm_num,
    (normalize_affine_invariance [(0 : ℚ), 1] 2 3 (by norm_num)).2 (by decide)⟩

/-! ### C9: `extract_frames` counts attempted decodes -/

lemma extract_frames_step_eq (parseF : String → Option ℚ) (decodeOk : String → Bool)
    (n : Nat) (t : String) :
    extract_frames_step parseF decodeOk n t
      = n + (if (parseF t).isSome then 1 else 0) := by
  unfold extract_frames_step
  cases parseF t <;> simp

lemma extract_frames_foldl (parseF : String → Option ℚ) (decodeOk : String → Bool)
    (ts : List String) : ∀ n : Nat,
    ts.foldl (extract_frames_step parseF decodeOk) n
      = n + (ts.filter (fun t => (parseF t).isSome)).length := by
  induction ts with
  | nil => intro n; simp
  | cons t ts ih =>
    intro n
    simp only [List.foldl_cons]
    rw [ih, extract_frames_step_eq, List.filter_cons]
    cases h : (parseF t).isSome
    case false => simp [h]
    case true =>
      simp [h]
      omega

/-- Claim C9: the count `extract_frames` returns equals the number of
timestamp entries that parse as floats; unparsable entries are skipped, and
the count is independent of whether the decoder produced a frame. -/
theorem extract_frames_counts_parsed (parseF : String → Option ℚ)
    (decodeOk decodeOk' : String → Bool) (ts : List String) :
    extract_frames parseF decodeOk ts
        = (ts.filter (fun t => (parseF t).isSome)).length ∧
    extract_frames parseF decodeOk ts = extract_frames parseF decodeOk' ts := by
  have key : ∀ d : String → Bool,
      extract_frames parseF d ts = (ts.filter (fun t => (parseF t).isSome)).length := by
    intro d
    unfold extract_frames
    rw [extract_frames_foldl]
    omega
  exact ⟨key decodeOk, (key decodeOk).trans (key decodeOk').symm⟩

/-! ### C5: deterministic timestamp selection -/

/-- Claim C5: timestamp selection is deterministic.  Two runs on the same
keyframe list (or the same duration) with the same `max_frames` produce the
identical timestamp sequence whatever ambient random state each run starts
from, because the shuffle is seeded with the fixed explicit seed 42. -/
theorem timestamp_selection_deterministic (shuffle : Nat → List String → List String)
    (fmt : ℚ → String) (probe : Option (List String)) (dur : Option ℚ)
    (max_frames : Nat) (st₁ st₂ : NpRandomState) :
    extract_keyframes shuffle fmt probe dur max_frames st₁
      = extract_keyframes shuffle fmt probe dur max_frames st₂ := rfl

/-! ### C3: fewer than two decoded frames is fatal -/

/-- Claim C3: `extract_watermark_mask` fails with the insufficient-samples
error exactly on stacks of fewer than two decoded frames; with two or more it
never raises that error (it may still fail differently). -/
theorem insufficient_samples_error (w : List ℚ) (r : Nat) (buff : List Frame) :
    (buff.length < 2 →
      extract_watermark_mask w r buff = .error .insufficientSamples) ∧
    (2 ≤ buff.length →
      extract_watermark_mask w r buff ≠ .error .insufficientSamples) := by
  constructor
  · intro h
    unfold extract_watermark_mask
    rw [if_pos h]
  · intro h2
    unfold extract_watermark_mask
    rw [if_neg (not_lt.2 h2)]
    rcases hs : stackShape? buff with _ | ⟨H, W, C⟩
    · simp
    · simp only []
      split <;> simp

/-- Witness for C3: the empty stack fails with the insufficient-samples
error, a stack of two equal 2×2×1 frames does not. -/
theorem insufficient_samples_error_witness :
    extract_watermark_mask [1] 0 ([] : List Frame) = .error .insufficientSamples ∧
    extract_watermark_mask [1] 0
        [[[[(0 : ℚ)], [0]], [[0], [0]]], [[[(0 : ℚ)], [0]], [[0], [0]]]]
      ≠ .error .insufficientSamples :=
  ⟨(insufficient_samples_error [1] 0 []).1 (by decide),
   (insufficient_samples_error [1] 0
      [[[[(0 : ℚ)], [0]], [[0], [0]]], [[[(0 : ℚ)], [0]], [[0], [0]]]]).2 (by decide)⟩

/-! ### C7: the uniform-grid fallback and `InputError` -/

/-- Counterexample to C7 as stated: with no keyframe list and a known
duration of 0 (a non-positive value), `extract_keyframes` does not fail with
the input error — it returns the degenerate uniform grid of fifty `"0.0000"`
timestamps. -/
theorem nonpositive_duration_no_input_error :
    extract_keyframes (fun _ l => l) (fun _ => "0.0000") none (some 0) 50 ⟨0⟩
      ≠ Except.error KfErr.inputError := by
  rw [show extract_keyframes (fun _ l => l) (fun _ => "0.0000") none (some 0) 50 ⟨0⟩
      = .ok ((List.range 50).map (fun _ => "0.0000")) from rfl]
  simp

/-- Claim C7 as amended: when no keyframe list exists (probing failed or
yielded no timestamps), selection fails with the input error exactly when the
duration is unknown (unparsable); whenever the duration parses — positive or
not — and `max_frames` is positive, it succeeds with the uniform grid. -/
theorem fallback_input_error_iff_unknown_duration
    (shuffle : Nat → List String → List String) (fmt : ℚ → String)
    (probe : Option (List String)) (dur : Option ℚ) (max_frames : Nat)
    (st : NpRandomState) (hp : probe = none ∨ probe = some []) :
    (extract_keyframes shuffle fmt probe dur max_frames st
        = .error .inputError ↔ dur = none) ∧
    (∀ d : ℚ, dur = some d → 0 < max_frames →
      extract_keyframes shuffle fmt probe dur max_frames st
        = .ok ((List.range max_frames).map
            (fun i => fmt ((i + 1 : ℚ) * (d / (max_frames : ℚ)))))) := by
  have hfall : extract_keyframes shuffle fmt probe dur max_frames st
      = extract_keyframes shuffle fmt none dur max_frames st := by
    rcases hp with rfl | rfl <;> rfl
  rw [hfall]
  constructor
  · cases dur with
    | none => simp [extract_keyframes]
    | some d =>
      simp only [extract_keyframes]
      split
      · simp
      · simp
  · intro d hd hm
    subst hd
    simp [extract_keyframes, Nat.pos_iff_ne_zero.mp hm]

/-- Witness for C7 (amended), at duration 1 and `max_frames = 50` with a
concrete shuffle and format function. -/
theorem fallback_input_error_iff_unknown_duration_witness :
    extract_keyframes (fun _ l => l) (fun q => toString q.num) none (some 1) 50 ⟨0⟩
      = .ok ((List.range 50).map
          (fun i => toString ((i + 1 : ℚ) * ((1 : ℚ) / (50 : ℚ))).num)) :=
  (fallback_input_error_iff_unknown_duration (fun _ l => l) (fun q => toString q.num)
    none (some 1) 50 ⟨0⟩ (Or.inl rfl)).2 1 rfl (by norm_num)

/-! ### Structural lemmas about `stackShape?` -/

lemma isRectF_iff (H W C : Nat) (f : Frame) :
    isRectF H W C f = true ↔
      (f.length = H ∧ ∀ row ∈ f, row.length = W ∧ ∀ ch ∈ row, ch.length = C) := by
  simp [isRectF, List.all_eq_true]

lemma canonShape_canonical (f : Frame) :
    ((canonShape f).1 = 0 → (canonShape f).2.1 = 0) ∧
    ((canonShape f).2.1 = 0 → (canonShape f).2.2 = 0) := by
  cases f with
  | nil => exact ⟨fun _ => rfl, fun _ => rfl⟩
  | cons r rs =>
    constructor
    · intro h
      exact absurd h (by simp [canonShape])
    · intro h
      have hr : r.length = 0 := h
      have : r = [] := List.length_eq_zero.mp hr
      subst this
      rfl

lemma canonShape_of_isRectF {H W C : Nat} {f : Frame}
    (hHW : H = 0 → W = 0) (hWC : W = 0 → C = 0)
    (h : isRectF H W C f = true) : canonShape f = (H, W, C) := by
  obtain ⟨hlen, hrows⟩ := (isRectF_iff H W C f).mp h
  cases f with
  | nil =>
    have hH : H = 0 := by simpa using hlen.symm
    have hW : W = 0 := hHW hH
    have hC : C = 0 := hWC hW
    subst hH; subst hW; subst hC
    rfl
  | cons r rs =>
    have hr : r.length = W := (hrows r (by simp)).1
    cases r with
    | nil =>
      have hW : W = 0 := by simpa using hr.symm
      have hC : C = 0 := hWC hW
      simp only [canonShape, List.headD_cons, List.length_nil, List.headD_nil]
      exact Prod.ext (by simpa using hlen) (Prod.ext hW.symm hC.symm)
    | cons ch chs =>
      have hch : ch.length = C := (hrows (ch :: chs) (by simp)).2 ch (by simp)
      simp only [canonShape, List.headD_cons]
      exact Prod.ext (by simpa using hlen) (Prod.ext (by simpa using hr) hch)

lemma stackShape?_spec {buff : List Frame} {H W C : Nat}
    (h : stackShape? buff = some (H, W, C)) :
    buff ≠ [] ∧ (∀ f ∈ buff, isRectF H W C f = true) ∧
      (∀ f ∈ buff, canonShape f = (H, W, C)) := by
  cases buff with
  | nil => simp [stackShape?] at h
  | cons f rest =>
    simp only [stackShape?] at h
    by_cases hc : ((f :: rest).all fun g =>
        isRectF (canonShape f).1 (canonShape f).2.1 (canonShape f).2.2 g) = true
    · rw [if_pos hc] at h
      have hcf : canonShape f = (H, W, C) := Option.some.inj h
      have hall : ∀ g ∈ f :: rest, isRectF H W C g = true := by
        intro g hg
        have := List.all_eq_true.mp hc g hg
        rwa [hcf] at this
      refine ⟨by simp, hall, fun g hg => ?_⟩
      have hcanon := canonShape_canonical f
      rw [hcf] at hcanon
      exact canonShape_of_isRectF hcanon.1 hcanon.2 (hall g hg)
    · rw [if_neg hc] at h
      cases h

lemma stackShape?_eq_some {f₀ : Frame} {rest : List Frame} {H W C : Nat}
    (h1 : canonShape f₀ = (H, W, C))
    (h2 : ∀ g ∈ f₀ :: rest, isRectF H W C g = true) :
    stackShape? (f₀ :: rest) = some (H, W, C) := by
  have hcond : ((f₀ :: rest).all fun g =>
      isRectF (canonShape f₀).1 (canonShape f₀).2.1 (canonShape f₀).2.2 g) = true := by
    rw [h1]
    exact List.all_eq_true.mpr h2
  simp only [stackShape?]
  rw [if_pos hcond, h1]

lemma stackShape?_some_of_perm {buff buff' : List Frame} {t : Nat × Nat × Nat}
    (h : buff.Perm buff') (hs : stackShape? buff = some t) :
    stackShape? buff' = some t := by
  obtain ⟨H, W, C⟩ := t
  obtain ⟨hne, hall, hcanon⟩ := stackShape?_spec hs
  cases hb' : buff' with
  | nil =>
    subst hb'
    exact absurd (List.Perm.eq_nil h) hne
  | cons f₀' rest' =>
    subst hb'
    have hmem : f₀' ∈ buff := (h.mem_iff).mpr (by simp)
    exact stackShape?_eq_some (hcanon f₀' hmem)
      (fun g hg => hall g ((h.mem_iff).mpr hg))

lemma stackShape?_perm {buff buff' : List Frame} (h : buff.Perm buff') :
    stackShape? buff = stackShape? buff' := by
  cases e : stackShape? buff with
  | some t => exact (stackShape?_some_of_perm h e).symm
  | none =>
    cases e' : stackShape? buff' with
    | some t => exact absurd (stackShape?_some_of_perm h.symm e') (by simp [e])
    | none => rfl

/-! ### C6: inconsistent frame dimensions are fatal -/

/-- Claim C6: if some decoded frame's height or width differs from the first
decoded frame's, `extract_watermark_mask` fails with the dimension-mismatch
error (the `ValueError` of stacking an inhomogeneous `np.array`), so no mask
is returned. -/
theorem dimension_mismatch_error (w : List ℚ) (r : Nat) (f₀ : Frame)
    (rest : List Frame) (h2 : 2 ≤ (f₀ :: rest).length)
    (hdiff : ∃ f ∈ f₀ :: rest,
      f.length ≠ f₀.length ∨ (f.headD []).length ≠ (f₀.headD []).length) :
    extract_watermark_mask w r (f₀ :: rest) = .error .dimensionMismatch := by
  obtain ⟨f, hf, hne⟩ := hdiff
  have hnone : stackShape? (f₀ :: rest) = none := by
    cases e : stackShape? (f₀ :: rest) with
    | none => rfl
    | some t =>
      obtain ⟨H, W, C⟩ := t
      obtain ⟨-, -, hcanon⟩ := stackShape?_spec e
      have h1 : canonShape f = (H, W, C) := hcanon f hf
      have h0 : canonShape f₀ = (H, W, C) := hcanon f₀ (by simp)
      have hfst : f.length = f₀.length := by
        have a1 : f.length = H := congrArg Prod.fst h1
        have a0 : f₀.length = H := congrArg Prod.fst h0
        rw [a1, a0]
      have hsnd : (f.headD []).length = (f₀.headD []).length := by
        have a1 : (f.headD []).length = W := congrArg (fun p => p.2.1) h1
        have a0 : (f₀.headD []).length = W := congrArg (fun p => p.2.1) h0
        rw [a1, a0]
      rcases hne with hne | hne
      · exact absurd hfst hne
      · exact absurd hsnd hne
  unfold extract_watermark_mask
  rw [if_neg (not_lt.2 h2), hnone]

/-- Witness for C6: a 2×2×1 frame stacked with a 3×2×1 frame. -/
theorem dimension_mismatch_error_witness :
    extract_watermark_mask [1] 0
        [sampleFrameA, [[[(0 : ℚ)], [0]], [[0], [0]], [[0], [0]]]]
      = .error .dimensionMismatch :=
  dimension_mismatch_error [1] 0 sampleFrameA
    [[[[(0 : ℚ)], [0]], [[0], [0]], [[0], [0]]]] (by decide)
    ⟨[[[(0 : ℚ)], [0]], [[0], [0]], [[0], [0]]], by decide, by decide⟩

/-! ### C1: accumulated statistic is mean-then-absolute-value -/

/-- Claim C1: for every stack of two or more equally-sized decoded frames,
the accumulated statistic (`mean_dx`, `mean_dy`) equals the absolute value of
the elementwise mean, over the frames, of the signed per-frame discrete
derivatives (each first averaged across color channels) — abs is applied
after the frame average, never before. -/
theorem grad_accumulation_mean_then_abs (buff : List Frame) (H W C : Nat)
    (h2 : 2 ≤ buff.length) (hs : stackShape? buff = some (H, W, C)) :
    mean_dx_of H W buff = absGrid (stackMean H W (buff.map specFrameGradH)) ∧
    mean_dy_of H W buff = absGrid (stackMean H W (buff.map specFrameGradV)) := by
  constructor
  · unfold mean_dx_of npMeanAxis3 npGradientAxis1 specFrameGradH
    rw [List.map_map]
    rfl
  · unfold mean_dy_of npMeanAxis3 npGradientAxis2 specFrameGradV
    rw [List.map_map]
    refine congrArg absGrid (congrArg (stackMean H W)
      (List.map_congr_left fun f _ => ?_))
    simp [Function.comp, List.map_map]

/-- Witness for C1 on a concrete stack of two 2×2×1 frames. -/
theorem grad_accumulation_mean_then_abs_witness :
    (2 ≤ sampleStack.length ∧ stackShape? sampleStack = some (2, 2, 1)) ∧
    (mean_dx_of 2 2 sampleStack
        = absGrid (stackMean 2 2 (sampleStack.map specFrameGradH)) ∧
      mean_dy_of 2 2 sampleStack
        = absGrid (stackMean 2 2 (sampleStack.map specFrameGradV))) :=
  ⟨⟨by decide, by decide⟩,
    grad_accumulation_mean_then_abs sampleStack 2 2 1 (by decide) (by decide)⟩

/-! ### C2: the MaskBuilder pipeline, step by step -/

lemma salientOf_eq_promote (mdx mdy : Grid) :
    salientOf mdx mdy
      = (specStep1 mdx mdy).map (List.map (fun x => if x then (1 : ℚ) else 0)) := by
  unfold salientOf specStep1
  rw [List.map_zipWith]
  congr 1
  funext r1 r2
  rw [List.map_zipWith]
  congr 1
  funext u v
  by_cases h1 : threshold < u <;> by_cases h2 : threshold < v <;> simp [h1, h2]

/-- Claim C2: on every successful run, the mask equals exactly the four
MaskBuilder steps in order — boolean thresholding at 10, float promotion and
Gaussian smoothing, min–max normalisation, binarisation at 0.2 to values
255/0 — applied to the absolute mean gradient fields. -/
theorem mask_pipeline_steps (w : List ℚ) (r : Nat) (buff : List Frame)
    (H W C : Nat) (m : MaskImg) (hs : stackShape? buff = some (H, W, C))
    (h : extract_watermark_mask w r buff = .ok m) :
    m = specStep4 (specStep3 (specStep2 w r H W
      (specStep1 (mean_dx_of H W buff) (mean_dy_of H W buff)))) := by
  unfold extract_watermark_mask at h
  split at h
  · exact absurd h (by simp)
  · split at h
    · exact absurd h (by simp)
    · rename_i H' W' C' heq
      have h3 : (H, W, C) = (H', W', C') := Option.some.inj (hs.symm.trans heq)
      injection h3 with eH h4
      injection h4 with eW eC
      subst eH; subst eW; subst eC
      split at h
      · exact absurd h (by simp)
      · injection h with hm
        rw [← hm]
        unfold specStep4 specStep3 specStep2
        rw [salientOf_eq_promote]

/-- Evaluation of a concrete successful run of the pipeline, by symbolic
arithmetic on the all-zero stack (rational arithmetic does not kernel-reduce,
so this is established by `norm_num` rather than `decide`). -/
lemma zeroStack_run : extract_watermark_mask [1] 0 zeroStack = .ok [[0, 0], [0, 0]] := by
  have h1 : stackShape? zeroStack = some (2, 2, 1) := by decide
  simp only [extract_watermark_mask, h1]
  norm_num [mean_dx_of, mean_dy_of, stackMean, npMeanAxis3, npGradientAxis1, npGradientAxis2,
    absGrid, grad1, gradAux, rowSub, rowHalf, chanSub, chanHalf, chanMean, zeroStack,
    List.range_succ, salientOf, threshold, gaussian_filter, correlateAxis0, correlateAxis1,
    reflectIdx, normalize2, listMin, listMax, binarizeMask]

/-- Witness for C2: the concrete run on `zeroStack` with a trivial kernel,
whose mask is all zero. -/
theorem mask_pipeline_steps_witness :
    ([[0, 0], [0, 0]] : MaskImg) = specStep4 (specStep3 (specStep2 [1] 0 2 2
      (specStep1 (mean_dx_of 2 2 zeroStack) (mean_dy_of 2 2 zeroStack)))) :=
  mask_pipeline_steps [1] 0 zeroStack 2 2 1 [[0, 0], [0, 0]] (by decide) zeroStack_run

/-! ### C8: mask dimensions and binary values -/

lemma rect_correlateAxis0 (H W : Nat) (w : List ℚ) (r : Nat) (g : Grid) :
    rectangular H W (correlateAxis0 H W w r g) := by
  constructor
  · unfold correlateAxis0
    rw [List.length_map, List.length_range]
  · intro row hrow
    unfold correlateAxis0 at hrow
    obtain ⟨i, -, rfl⟩ := List.mem_map.1 hrow
    rw [List.length_map, List.length_range]

lemma rect_correlateAxis1 (H W : Nat) (w : List ℚ) (r : Nat) (g : Grid) :
    rectangular H W (correlateAxis1 H W w r g) := by
  constructor
  · unfold correlateAxis1
    rw [List.length_map, List.length_range]
  · intro row hrow
    unfold correlateAxis1 at hrow
    obtain ⟨i, -, rfl⟩ := List.mem_map.1 hrow
    rw [List.length_map, List.length_range]

lemma rect_gaussian (w : List ℚ) (r : Nat) (H W : Nat) (g : Grid) :
    rectangular H W (gaussian_filter w r H W g) :=
  rect_correlateAxis1 H W w r _

lemma rect_map {α β : Type} (H W : Nat) (g : List (List α)) (f : α → β)
    (h : rectangular H W g) : rectangular H W (g.map (List.map f)) := by
  obtain ⟨h1, h2⟩ := h
  constructor
  · simpa using h1
  · intro row hrow
    obtain ⟨row₀, hr₀, rfl⟩ := List.mem_map.1 hrow
    simpa using h2 row₀ hr₀

lemma rect_normalize2 (H W : Nat) (g : Grid) (h : rectangular H W g) :
    rectangular H W (normalize2 g) := by
  unfold normalize2
  split
  · exact rect_map H W g _ h
  · exact rect_map H W g _ h

lemma rect_binarizeMask (H W : Nat) (g : Grid) (h : rectangular H W g) :
    rectangular H W (binarizeMask g) :=
  rect_map H W g _ h

lemma binarizeMask_values (g : Grid) :
    ∀ row ∈ binarizeMask g, ∀ v ∈ row, v = 0 ∨ v = 255 := by
  intro row hrow v hv
  unfold binarizeMask at hrow
  obtain ⟨row₀, -, rfl⟩ := List.mem_map.1 hrow
  obtain ⟨v₀, -, rfl⟩ := List.mem_map.1 hv
  by_cases h : (1 : ℚ) / 5 < v₀
  · rw [if_pos h]
    exact Or.inr rfl
  · rw [if_neg h]
    exact Or.inl rfl

/-- Claim C8: every mask a successful run produces is a single-channel image
whose height and width equal the decoded frames' height and width, and every
pixel value is exactly 0 or 255. -/
theorem mask_shape_and_binary_values (w : List ℚ) (r : Nat) (buff : List Frame)
    (m : MaskImg) (h : extract_watermark_mask w r buff = .ok m) :
    ∃ H W C, stackShape? buff = some (H, W, C) ∧
      (∀ f ∈ buff, f.length = H ∧ ∀ row ∈ f, row.length = W) ∧
      m.length = H ∧ (∀ row ∈ m, row.length = W) ∧
      (∀ row ∈ m, ∀ v ∈ row, v = 0 ∨ v = 255) := by
  unfold extract_watermark_mask at h
  split at h
  · exact absurd h (by simp)
  · split at h
    · exact absurd h (by simp)
    · rename_i H W C heq
      split at h
      · exact absurd h (by simp)
      · injection h with hm
        subst hm
        have hrect : rectangular H W (binarizeMask (normalize2 (gaussian_filter w r H W
            (salientOf (mean_dx_of H W buff) (mean_dy_of H W buff))))) :=
          rect_binarizeMask H W _ (rect_normalize2 H W _ (rect_gaussian w r H W _))
        refine ⟨H, W, C, heq, ?_, hrect.1, hrect.2, binarizeMask_values _⟩
        intro f hf
        obtain ⟨-, hall, -⟩ := stackShape?_spec heq
        obtain ⟨h1, h2⟩ := (isRectF_iff H W C f).mp (hall f hf)
        exact ⟨h1, fun row hrow => (h2 row hrow).1⟩

/-- Witness for C8: the successful run on `zeroStack`. -/
theorem mask_shape_and_binary_values_witness :
    ∃ H W C, stackShape? zeroStack = some (H, W, C) ∧
      (∀ f ∈ zeroStack, f.length = H ∧ ∀ row ∈ f, row.length = W) ∧
      ([[0, 0], [0, 0]] : MaskImg).length = H ∧
      (∀ row ∈ ([[0, 0], [0, 0]] : MaskImg), row.length = W) ∧
      (∀ row ∈ ([[0, 0], [0, 0]] : MaskImg), ∀ v ∈ row, v = 0 ∨ v = 255) :=
  mask_shape_and_binary_values [1] 0 zeroStack [[0, 0], [0, 0]] zeroStack_run

/-! ### C10: frame order does not change the mask -/

lemma stackMean_perm (H W : Nat) {ds ds' : List Grid} (h : ds.Perm ds') :
    stackMean H W ds = stackMean H W ds' := by
  unfold stackMean
  refine List.map_congr_left fun i _ => List.map_congr_left fun j _ => ?_
  rw [(h.map _).sum_eq, h.length_eq]

lemma mean_dx_of_perm (H W : Nat) {b b' : List Frame} (h : b.Perm b') :
    mean_dx_of H W b = mean_dx_of H W b' := by
  unfold mean_dx_of npMeanAxis3 npGradientAxis1
  exact congrArg absGrid (stackMean_perm H W ((h.map _).map _))

lemma mean_dy_of_perm (H W : Nat) {b b' : List Frame} (h : b.Perm b') :
    mean_dy_of H W b = mean_dy_of H W b' := by
  unfold mean_dy_of npMeanAxis3 npGradientAxis2
  exact congrArg absGrid (stackMean_perm H W ((h.map _).map _))

/-- Claim C10: the mask computation is invariant under any permutation of the
order in which the decoded frames are stacked. -/
theorem mask_perm_invariant (w : List ℚ) (r : Nat) (buff buff' : List Frame)
    (h : buff.Perm buff') :
    extract_watermark_mask w r buff = extract_watermark_mask w r buff' := by
  unfold extract_watermark_mask
  rw [h.length_eq, stackShape?_perm h]
  by_cases hl : buff'.length < 2
  · rw [if_pos hl, if_pos hl]
  · rw [if_neg hl, if_neg hl]
    cases e : stackShape? buff' with
    | none => rfl
    | some t =>
      obtain ⟨H, W, C⟩ := t
      by_cases hHW : (H < 2 || W < 2) = true
      · simp only [hHW, if_true]
      · simp only [hHW, Bool.false_eq_true, if_false]
        rw [mean_dx_of_perm H W h, mean_dy_of_perm H W h]

/-- Witness for C10: swapping the two frames of a concrete stack leaves the
mask computation unchanged. -/
theorem mask_perm_invariant_witness :
    extract_watermark_mask [1] 0 [sampleFrameA, sampleFrameB]
      = extract_watermark_mask [1] 0 [sampleFrameB, sampleFrameA] :=
  mask_perm_invariant [1] 0 _ _ (List.Perm.swap sampleFrameB sampleFrameA [])

end RemoveWatermark
